import Mathlib

/-!
Verification of the billing/notification follow-up scheduler
(`src/ai_backend/billing_automation.py`), the insurance claim lifecycle
tracker (`src/ai_backend/insurance_processor.py`) and the AI score
extractor (`src/ai_backend/ai_agent.py`).

The stateful Python code is shallowly embedded: the in-memory tracking
dictionaries become association lists, each operation becomes a pure
state transformation, and the points where the code calls an external
collaborator (payment processor, clearinghouse, wall clock, random
draw) take the collaborator's answer as an explicit argument. Machine
integers are `Int`, the uniform random draw is a rational in `[0,1)`,
timestamps are opaque strings supplied by the caller.
-/

namespace Octo

/-! Rule table of `billing_automation.py`. -/

/-- `FollowUpType` enum of `billing_automation.py`. -/
inductive FollowUpType
  | gentle
  | firm
  | final_notice
  | collections
deriving DecidableEq, Repr

/-- The `.value` string of each enum member, as in Python's `Enum`. -/
def FollowUpType.value : FollowUpType → String
  | .gentle => "gentle"
  | .firm => "firm"
  | .final_notice => "final_notice"
  | .collections => "collections"

/-- `BillingRule` dataclass. -/
structure BillingRule where
  days_after_due : Int
  follow_up_type : FollowUpType
  action : String
  template_id : String
deriving DecidableEq, Repr

/-- `BillingAutomation._setup_billing_rules`: the static rule list. -/
def billing_rules : List BillingRule :=
  [ { days_after_due := 7, follow_up_type := .gentle,
      action := "send_reminder", template_id := "gentle_reminder" },
    { days_after_due := 30, follow_up_type := .firm,
      action := "send_reminder", template_id := "firm_reminder" },
    { days_after_due := 60, follow_up_type := .final_notice,
      action := "send_final_notice", template_id := "final_notice" },
    { days_after_due := 90, follow_up_type := .collections,
      action := "send_to_collections", template_id := "collections_notice" } ]

/-- The gentle rule (index 0 of `billing_rules`). -/
def gentleRule : BillingRule := billing_rules[0]

/-- The firm rule (index 1 of `billing_rules`). -/
def firmRule : BillingRule := billing_rules[1]

/-- The final-notice rule (index 2 of `billing_rules`). -/
def finalNoticeRule : BillingRule := billing_rules[2]

/-- The collections rule (index 3 of `billing_rules`). -/
def collectionsRule : BillingRule := billing_rules[3]

/-- The per-rule test of the first loop of `_get_applicable_rule`: threshold at most `days_overdue` and category string equal to the request. -/
def rule_matches (d : Int) (c : String) (r : BillingRule) : Bool :=
  decide (r.days_after_due ≤ d) && (r.follow_up_type.value == c)

/-- Python's `max(rules, key=lambda r: r.days_after_due)` on a nonempty list: left-to-right scan keeping the current maximum, replacing it only on a strictly larger key (ties keep the earlier element). -/
def maxByDays (x : BillingRule) (xs : List BillingRule) : BillingRule :=
  xs.foldl (fun best r => if best.days_after_due < r.days_after_due then r else best) x

/-- `BillingAutomation._get_applicable_rule`: first rule whose threshold is at most `days_overdue` and whose category equals the request; else the applicable rule with the largest threshold; else `none`. -/
def get_applicable_rule (days_overdue : Int) (follow_up_type : String) :
    Option BillingRule :=
  match billing_rules.find? (rule_matches days_overdue follow_up_type) with
  | some r => some r
  | none =>
    match billing_rules.filter (fun r => decide (r.days_after_due ≤ days_overdue)) with
    | [] => none
    | x :: xs => some (maxByDays x xs)

/-! Billing follow-up tracker state. -/

/-- One entry of `BillingAutomation.active_followups`. The cached `invoice_data` snapshot is omitted: it only feeds message rendering and the mocked send channels, which have no effect on the tracked state. -/
structure FollowUp where
  invoice_id : String
  days_overdue : Int
  follow_up_type : String
  rule : BillingRule
  status : String
  created_at : String
  executed_at : Option String := none
  cancelled_at : Option String := none
  collections_id : Option String := none
  sent_to_collections : Bool := false
deriving DecidableEq, Repr

/-- The `active_followups` dictionary, as an insertion-ordered association list. -/
abbrev Followups := List (String × FollowUp)

/-- The dictionary key `BF-<invoice_id>-<follow_up_type>` built by `schedule_followup`. -/
def followupKey (invoice_id follow_up_type : String) : String :=
  "BF-" ++ invoice_id ++ "-" ++ follow_up_type

/-- Python dict assignment `d[k] = v`: updates in place when the key is present (keeping its position), otherwise appends. -/
def dictSet (s : Followups) (k : String) (v : FollowUp) : Followups :=
  if s.any (fun p => p.1 == k) then
    s.map (fun p => if p.1 == k then (k, v) else p)
  else s ++ [(k, v)]

/-- Effect of `_execute_followup_action` on the record found at the key: the `send_to_collections` action stamps a collections case (id `COL-` plus the clock string `t_col`), and every action ends with status `executed` and an execution timestamp `t_exec`. -/
def executeOne (t_exec t_col : String) (f : FollowUp) : FollowUp :=
  let f1 :=
    if f.rule.action = "send_to_collections" then
      { f with collections_id := some ("COL-" ++ t_col), sent_to_collections := true }
    else f
  { f1 with status := "executed", executed_at := some t_exec }

/-- `BillingAutomation._execute_followup_action`: look the record up by id (no-op when absent), run the action effect and mark it executed. -/
def execute_followup_action (s : Followups) (followup_id : String)
    (t_exec t_col : String) : Followups :=
  match s.find? (fun p => p.1 == followup_id) with
  | none => s
  | some _ =>
    s.map (fun p =>
      if p.1 == followup_id then (p.1, executeOne t_exec t_col p.2) else p)

/-- The record stored by `schedule_followup` before execution. -/
def freshFollowUp (invoice_id : String) (days_overdue : Int)
    (follow_up_type : String) (rule : BillingRule) (t_create : String) : FollowUp :=
  { invoice_id := invoice_id, days_overdue := days_overdue,
    follow_up_type := follow_up_type, rule := rule,
    status := "scheduled", created_at := t_create }

/-- The first half of `schedule_followup`: resolve the rule (log-and-return when none applies) and store a fresh `scheduled` record under the derived key. Separated out because the stored record is observable by other tasks before the execution step runs. -/
def schedule_followup_store (s : Followups) (invoice_id : String) (days_overdue : Int)
    (follow_up_type : String) (t_create : String) : Followups :=
  match get_applicable_rule days_overdue follow_up_type with
  | none => s
  | some rule =>
    dictSet s (followupKey invoice_id follow_up_type)
      (freshFollowUp invoice_id days_overdue follow_up_type rule t_create)

/-- `BillingAutomation.schedule_followup`: store the record, then immediately execute the follow-up action. `t_create`, `t_exec` and `t_col` are the successive `datetime.now()` readings. -/
def schedule_followup (s : Followups) (invoice_id : String) (days_overdue : Int)
    (follow_up_type : String) (t_create t_exec t_col : String) : Followups :=
  match get_applicable_rule days_overdue follow_up_type with
  | none => s
  | some _ =>
    execute_followup_action (schedule_followup_store s invoice_id days_overdue follow_up_type t_create)
      (followupKey invoice_id follow_up_type) t_exec t_col

/-- Result dictionary of `PaymentProcessor.process_payment`. -/
structure PaymentResult where
  status : String
  transaction_id : Option String := none
deriving DecidableEq, Repr

/-- `PaymentProcessor.process_payment` (mock): always succeeds. -/
def payment_processor_process_payment (t_now : String) : PaymentResult :=
  { status := "success", transaction_id := some ("TXN-" ++ t_now) }

/-- `BillingAutomation._cancel_followups_for_invoice`: every record of the invoice still in status `scheduled` becomes `cancelled` with a timestamp. -/
def cancel_followups_for_invoice (s : Followups) (invoice_id : String)
    (t_now : String) : Followups :=
  s.map (fun p =>
    if p.2.invoice_id == invoice_id && p.2.status == "scheduled" then
      (p.1, { p.2 with status := "cancelled", cancelled_at := some t_now })
    else p)

/-- `BillingAutomation.process_payment` with the external payment processor's response passed in as `result`: on success cancel the invoice's scheduled follow-ups, otherwise leave the table alone; the result is returned to the caller either way. -/
def process_payment_with (s : Followups) (invoice_id : String)
    (result : PaymentResult) (t_now : String) : PaymentResult × Followups :=
  if result.status = "success" then
    (result, cancel_followups_for_invoice s invoice_id t_now)
  else (result, s)

/-- `BillingAutomation.process_payment` composed with the mock processor. -/
def process_payment (s : Followups) (invoice_id : String) (t_pay t_now : String) :
    PaymentResult × Followups :=
  process_payment_with s invoice_id (payment_processor_process_payment t_pay) t_now

/-- Follow-up tables reachable from the empty table by the tracker's operations. The store and execute halves of `schedule_followup` are separate steps, so tables observed between them (where a record is still `scheduled`) are included. -/
inductive Reachable : Followups → Prop
  | init : Reachable []
  | create {s} (invoice_id : String) (days_overdue : Int) (follow_up_type : String)
      (t_create : String) :
      Reachable s → Reachable (schedule_followup_store s invoice_id days_overdue follow_up_type t_create)
  | execute {s} (followup_id : String) (t_exec t_col : String) :
      Reachable s → Reachable (execute_followup_action s followup_id t_exec t_col)
  | payment {s} (invoice_id : String) (result : PaymentResult) (t_now : String) :
      Reachable s → Reachable (process_payment_with s invoice_id result t_now).2

/-- Keys are unique and each key is the one derived from the record's own invoice and category. -/
def WellKeyed (s : Followups) : Prop :=
  (s.map Prod.fst).Nodup ∧
  ∀ p ∈ s, p.1 = followupKey p.2.invoice_id p.2.follow_up_type

/-! Claim lifecycle tracker of `insurance_processor.py`. -/

/-- One entry of `InsuranceProcessor.claim_tracker`. Of the `ai_analysis` dictionary only the `approval_likelihood` value matters to the tracker; `none` models a missing key. -/
structure ClaimRecord where
  status : String
  submission_date : String
  ai_approval_likelihood : Option Int
  clearinghouse_id : Option String := none
  last_updated : Option String := none
  adjudication_result : Option String := none
  approved_amount : Option ℚ := none
  denial_reason : Option String := none
  appeal_id : Option String := none
  appeal_status : Option String := none
  appeal_date : Option String := none
  payment_amount : Option ℚ := none
  payment_date : Option String := none
deriving DecidableEq, Repr

/-- The record created by `InsuranceProcessor.submit_claim`. -/
def submit_claim (ai_approval_likelihood : Option Int) (t_submit : String) : ClaimRecord :=
  { status := "submitted", submission_date := t_submit,
    ai_approval_likelihood := ai_approval_likelihood }

/-- `InsuranceProcessor._submit_to_clearinghouse`: after the simulated delay the status is set to `in_progress` and a clearinghouse id is stamped. -/
def submit_to_clearinghouse (claim_id : String) (c : ClaimRecord) : ClaimRecord :=
  { c with status := "in_progress", clearinghouse_id := some ("CH-" ++ claim_id) }

/-- `InsuranceProcessor._initiate_appeal`: stamp appeal id, status and date. -/
def initiate_appeal (claim_id : String) (t_now : String) (c : ClaimRecord) : ClaimRecord :=
  { c with appeal_id := some ("APP-" ++ claim_id),
           appeal_status := some "submitted",
           appeal_date := some t_now }

/-- `InsuranceProcessor._handle_adjudication`: `r` stands for the `random.random()` draw in `[0,1)`; the claim is approved exactly when `r * 100 < approval_likelihood`, with 75 the default for a missing key; denial stamps a reason and triggers the automatic appeal. -/
def handle_adjudication (claim_id : String) (r : ℚ) (t_now : String)
    (c : ClaimRecord) : ClaimRecord :=
  let approval_likelihood : Int := c.ai_approval_likelihood.getD 75
  if r * 100 < (approval_likelihood : ℚ) then
    { c with adjudication_result := some "approved", approved_amount := some 450 }
  else
    initiate_appeal claim_id t_now
      { c with adjudication_result := some "denied",
               denial_reason := some "Medical necessity not established" }

/-- `InsuranceProcessor._handle_payment`: payment fields are stamped only for approved claims. -/
def handle_payment (t_now : String) (c : ClaimRecord) : ClaimRecord :=
  if c.adjudication_result = some "approved" then
    { c with payment_amount := some (c.approved_amount.getD 0),
             payment_date := some t_now }
  else c

/-- One iteration of the loop of `_track_claim_status`: write the status and `last_updated`, then run the adjudication or payment handler when due. -/
def track_claim_status_step (claim_id : String) (r : ℚ) (t_now : String)
    (c : ClaimRecord) (st : String) : ClaimRecord :=
  let c1 := { c with status := st, last_updated := some t_now }
  if st = "adjudicated" then handle_adjudication claim_id r t_now c1
  else if st = "paid" then handle_payment t_now c1
  else c1

/-- The `statuses` list iterated by `_track_claim_status`. -/
def claim_statuses : List String :=
  ["submitted", "received", "processing", "adjudicated", "paid"]

/-- Every state of a claim record from creation to the end of the background progression: after `submit_claim`, after `_submit_to_clearinghouse`, and after each iteration of `_track_claim_status`. All `datetime.now()` readings are abstracted by the clock string `t`. -/
def claim_pipeline_states (claim_id : String) (ai_approval_likelihood : Option Int)
    (r : ℚ) (t : String) : List ClaimRecord :=
  let s0 := submit_claim ai_approval_likelihood t
  let s1 := submit_to_clearinghouse claim_id s0
  s0 :: List.scanl (track_claim_status_step claim_id r t) s1 claim_statuses

/-- The dictionary returned by `get_claim_status`. -/
structure ClaimSnapshot where
  claim_id : String
  status : String
  submission_date : String
  last_updated : Option String
  adjudication_result : Option String
  approved_amount : Option ℚ
  payment_amount : Option ℚ
  payment_date : Option String
  denial_reason : Option String
  appeal_id : Option String
  appeal_status : Option String
deriving DecidableEq, Repr

/-- `InsuranceProcessor.get_claim_status` on a tracked record: a pure read of the stored fields. -/
def get_claim_status (claim_id : String) (c : ClaimRecord) : ClaimSnapshot :=
  { claim_id := claim_id, status := c.status,
    submission_date := c.submission_date, last_updated := c.last_updated,
    adjudication_result := c.adjudication_result,
    approved_amount := c.approved_amount,
    payment_amount := c.payment_amount, payment_date := c.payment_date,
    denial_reason := c.denial_reason, appeal_id := c.appeal_id,
    appeal_status := c.appeal_status }

/-! Approval-likelihood extraction of `ai_agent.py`. -/

/-- Python's `int` on a nonempty digit string. -/
def digitsToNat (cs : List Char) : Nat :=
  cs.foldl (fun n c => 10 * n + (c.toNat - Char.toNat '0')) 0

/-- `re.search` of the pattern digits-then-percent: at each start position a digit begins a maximal digit run, and the match succeeds when the run is followed by `%` (shrinking the greedy run only exposes further digits, never `%`, so backtracking inside the run cannot succeed); otherwise the start position advances. -/
def searchPct : List Char → Option Nat
  | [] => none
  | c :: rest =>
    if c.isDigit then
      match (c :: rest).dropWhile Char.isDigit with
      | d :: _ =>
        if d = '%' then some (digitsToNat ((c :: rest).takeWhile Char.isDigit))
        else searchPct rest
      | [] => searchPct rest
    else searchPct rest

/-- `AIAgent._extract_approval_likelihood`: the integer of the first percentage in the text, defaulting to 75. -/
def extract_approval_likelihood (analysis : String) : Int :=
  match searchPct analysis.data with
  | some n => (n : Int)
  | none => 75

/-- Specification-side predicate: some digit of the text is immediately followed by a percent sign. This is exactly when the regex of `_extract_approval_likelihood` matches. -/
def hasPctPattern : List Char → Bool
  | [] => false
  | [_] => false
  | a :: b :: rest => (a.isDigit && b == '%') || hasPctPattern (b :: rest)

/-! Theorems. -/

/-- The exact-category scan of `_get_applicable_rule` in closed form. -/
theorem find?_char (d : Int) (c : String) :
    billing_rules.find? (rule_matches d c) =
      if 7 ≤ d ∧ c = "gentle" then some gentleRule
      else if 30 ≤ d ∧ c = "firm" then some firmRule
      else if 60 ≤ d ∧ c = "final_notice" then some finalNoticeRule
      else if 90 ≤ d ∧ c = "collections" then some collectionsRule
      else none := by
  split_ifs with h1 h2 h3 h4
  · obtain ⟨hd, hc⟩ := h1
    subst hc
    rw [billing_rules, List.find?_cons_of_pos _ (by simp [rule_matches, FollowUpType.value, hd])]
    rfl
  · obtain ⟨hd, hc⟩ := h2
    subst hc
    rw [billing_rules,
      List.find?_cons_of_neg _ (by simp [rule_matches, FollowUpType.value]),
      List.find?_cons_of_pos _ (by simp [rule_matches, FollowUpType.value, hd])]
    rfl
  · obtain ⟨hd, hc⟩ := h3
    subst hc
    rw [billing_rules,
      List.find?_cons_of_neg _ (by simp [rule_matches, FollowUpType.value]),
      List.find?_cons_of_neg _ (by simp [rule_matches, FollowUpType.value]),
      List.find?_cons_of_pos _ (by simp [rule_matches, FollowUpType.value, hd])]
    rfl
  · obtain ⟨hd, hc⟩ := h4
    subst hc
    rw [billing_rules,
      List.find?_cons_of_neg _ (by simp [rule_matches, FollowUpType.value]),
      List.find?_cons_of_neg _ (by simp [rule_matches, FollowUpType.value]),
      List.find?_cons_of_neg _ (by simp [rule_matches, FollowUpType.value]),
      List.find?_cons_of_pos _ (by simp [rule_matches, FollowUpType.value, hd])]
    rfl
  · have key : ∀ (t : Int) (v : String), ¬(t ≤ d ∧ c = v) →
        ¬(decide (t ≤ d) && (v == c)) = true := by
      intro t v h
      simp only [Bool.and_eq_true, decide_eq_true_eq, beq_iff_eq, not_and]
      intro hd hc
      exact h ⟨hd, hc.symm⟩
    rw [billing_rules,
      List.find?_cons_of_neg _ (by simpa [rule_matches, FollowUpType.value] using key 7 "gentle" h1),
      List.find?_cons_of_neg _ (by simpa [rule_matches, FollowUpType.value] using key 30 "firm" h2),
      List.find?_cons_of_neg _ (by simpa [rule_matches, FollowUpType.value] using key 60 "final_notice" h3),
      List.find?_cons_of_neg _ (by simpa [rule_matches, FollowUpType.value] using key 90 "collections" h4),
      List.find?_nil]

/-- The applicable-rule filter of `_get_applicable_rule` in closed form. -/
theorem filter_char (d : Int) :
    billing_rules.filter (fun r => decide (r.days_after_due ≤ d)) =
      if 90 ≤ d then [gentleRule, firmRule, finalNoticeRule, collectionsRule]
      else if 60 ≤ d then [gentleRule, firmRule, finalNoticeRule]
      else if 30 ≤ d then [gentleRule, firmRule]
      else if 7 ≤ d then [gentleRule]
      else [] := by
  split_ifs with h1 h2 h3 h4
  · simp [billing_rules, List.filter, gentleRule, firmRule, finalNoticeRule, collectionsRule,
      h1, show (7:Int) ≤ d by omega, show (30:Int) ≤ d by omega, show (60:Int) ≤ d by omega]
  · simp [billing_rules, List.filter, gentleRule, firmRule, finalNoticeRule, collectionsRule,
      h1, h2, show (7:Int) ≤ d by omega, show (30:Int) ≤ d by omega]
  · simp [billing_rules, List.filter, gentleRule, firmRule, finalNoticeRule, collectionsRule,
      h1, h2, h3, show (7:Int) ≤ d by omega]
  · simp [billing_rules, List.filter, gentleRule, firmRule, finalNoticeRule, collectionsRule,
      h1, h2, h3, h4]
  · simp [billing_rules, List.filter, show ¬((7:Int) ≤ d) by omega, show ¬((30:Int) ≤ d) by omega,
      show ¬((60:Int) ≤ d) by omega, show ¬((90:Int) ≤ d) by omega]

/-- Closed form of `_get_applicable_rule`: exact category match first (in list order), then fallback to the largest applicable threshold. -/
theorem get_applicable_rule_eq (d : Int) (c : String) :
    get_applicable_rule d c =
      if 7 ≤ d ∧ c = "gentle" then some gentleRule
      else if 30 ≤ d ∧ c = "firm" then some firmRule
      else if 60 ≤ d ∧ c = "final_notice" then some finalNoticeRule
      else if 90 ≤ d ∧ c = "collections" then some collectionsRule
      else if 90 ≤ d then some collectionsRule
      else if 60 ≤ d then some finalNoticeRule
      else if 30 ≤ d then some firmRule
      else if 7 ≤ d then some gentleRule
      else none := by
  unfold get_applicable_rule
  rw [find?_char, filter_char]
  split_ifs with h1 h2 h3 h4 h5 h6 h7 h8 <;>
    simp [maxByDays, gentleRule, firmRule, finalNoticeRule, collectionsRule, billing_rules]

/-- C1: for every non-negative `days_overdue` and requested category, the rule table returns the rule whose category equals the request and whose threshold is at most `days_overdue` when such a rule exists; otherwise the applicable rule with the largest threshold regardless of category; and `none` when no threshold fits. In particular `days_overdue = 0` yields no applicable rule and `days_overdue = 7` with category `gentle` yields the gentle rule (inclusive threshold). -/
theorem C1_rule_table_resolution (d : Int) (c : String) (hd : 0 ≤ d) :
    (∀ r ∈ billing_rules, r.days_after_due ≤ d → r.follow_up_type.value = c →
        get_applicable_rule d c = some r) ∧
    ((¬ ∃ r ∈ billing_rules, r.days_after_due ≤ d ∧ r.follow_up_type.value = c) →
      (∃ r ∈ billing_rules, r.days_after_due ≤ d) →
      ∃ r, get_applicable_rule d c = some r ∧ r ∈ billing_rules ∧
        r.days_after_due ≤ d ∧
        ∀ r' ∈ billing_rules, r'.days_after_due ≤ d → r'.days_after_due ≤ r.days_after_due) ∧
    ((∀ r ∈ billing_rules, ¬ r.days_after_due ≤ d) → get_applicable_rule d c = none) ∧
    (∀ c' : String, get_applicable_rule 0 c' = none) ∧
    (get_applicable_rule 7 "gentle" = some gentleRule) := by
  refine ⟨?_, ?_, ?_, ?_, ?_⟩
  · intro r hr hle hval
    fin_cases hr <;> simp only [FollowUpType.value] at hval <;> subst hval <;>
      rw [get_applicable_rule_eq] <;>
      simp_all [gentleRule, firmRule, finalNoticeRule, collectionsRule, billing_rules]
  · intro hno hex
    have hcg : 7 ≤ d → c ≠ "gentle" := fun hle h =>
      hno ⟨gentleRule, by simp [billing_rules, gentleRule], by exact hle,
        by simp [gentleRule, billing_rules, FollowUpType.value, h]⟩
    have hcf : 30 ≤ d → c ≠ "firm" := fun hle h =>
      hno ⟨firmRule, by simp [billing_rules, firmRule], by exact hle,
        by simp [firmRule, billing_rules, FollowUpType.value, h]⟩
    have hcn : 60 ≤ d → c ≠ "final_notice" := fun hle h =>
      hno ⟨finalNoticeRule, by simp [billing_rules, finalNoticeRule], by exact hle,
        by simp [finalNoticeRule, billing_rules, FollowUpType.value, h]⟩
    have hcc : 90 ≤ d → c ≠ "collections" := fun hle h =>
      hno ⟨collectionsRule, by simp [billing_rules, collectionsRule], by exact hle,
        by simp [collectionsRule, billing_rules, FollowUpType.value, h]⟩
    rw [get_applicable_rule_eq]
    rcases le_or_lt 90 d with h90 | h90
    · refine ⟨collectionsRule, ?_, by simp [billing_rules, collectionsRule], ?_, ?_⟩
      · simp [hcg (by omega), hcf (by omega), hcn (by omega), hcc h90, h90]
      · show (90:Int) ≤ d; omega
      · intro r' hr' _; fin_cases hr' <;> simp [collectionsRule, billing_rules] <;> omega
    · rcases le_or_lt 60 d with h60 | h60
      · refine ⟨finalNoticeRule, ?_, by simp [billing_rules, finalNoticeRule], ?_, ?_⟩
        · simp [hcg (by omega), hcf (by omega), hcn h60, h60, show ¬ (90 ≤ d) by omega]
        · show (60:Int) ≤ d; omega
        · intro r' hr' hle'; fin_cases hr' <;>
            simp_all [finalNoticeRule, billing_rules] <;> omega
      · rcases le_or_lt 30 d with h30 | h30
        · refine ⟨firmRule, ?_, by simp [billing_rules, firmRule], ?_, ?_⟩
          · simp [hcg (by omega), hcf h30, h30, show ¬ (60 ≤ d) by omega,
              show ¬ (90 ≤ d) by omega]
          · show (30:Int) ≤ d; omega
          · intro r' hr' hle'; fin_cases hr' <;>
              simp_all [firmRule, billing_rules] <;> omega
        · rcases le_or_lt 7 d with h7 | h7
          · refine ⟨gentleRule, ?_, by simp [billing_rules, gentleRule], ?_, ?_⟩
            · simp [hcg h7, h7, show ¬ (30 ≤ d) by omega, show ¬ (60 ≤ d) by omega,
                show ¬ (90 ≤ d) by omega]
            · show (7:Int) ≤ d; omega
            · intro r' hr' hle'; fin_cases hr' <;>
                simp_all [gentleRule, billing_rules] <;> omega
          · exfalso
            obtain ⟨r, hr, hle⟩ := hex
            fin_cases hr <;> simp_all [billing_rules] <;> omega
  · intro hall
    have h7 : ¬ (7 ≤ d) := hall gentleRule (by simp [billing_rules, gentleRule])
    rw [get_applicable_rule_eq]
    simp [h7, show ¬ (30 ≤ d) by simp [gentleRule, billing_rules] at h7; omega,
      show ¬ (60 ≤ d) by simp [gentleRule, billing_rules] at h7; omega,
      show ¬ (90 ≤ d) by simp [gentleRule, billing_rules] at h7; omega]
  · intro c'
    rw [get_applicable_rule_eq]
    norm_num
  · rw [get_applicable_rule_eq]
    norm_num

/-- Witness for C1 at `days_overdue = 35`, category `firm`. -/
theorem C1_rule_table_resolution_witness :
    (0 : Int) ≤ 35 ∧
    get_applicable_rule 35 "firm" = some firmRule ∧
    get_applicable_rule 0 "gentle" = none := by
  have h := C1_rule_table_resolution 35 "firm" (by norm_num)
  exact ⟨by norm_num,
    h.1 firmRule (by simp [billing_rules, firmRule]) (by decide)
      (by simp [firmRule, billing_rules, FollowUpType.value]),
    h.2.2.2.1 "gentle"⟩

/-- C2 counterexample: at `days_overdue = 95` with requested category `firm` the rule table returns the firm rule, not the collections rule, refuting the claim that every `days_overdue ≥ 90` resolves to `collections` regardless of category. -/
theorem C2_counterexample :
    get_applicable_rule 95 "firm" = some firmRule ∧
    firmRule.follow_up_type = FollowUpType.firm ∧
    (get_applicable_rule 95 "firm").map BillingRule.follow_up_type ≠
      some FollowUpType.collections := by
  decide

/-- C2 (amended): for `days_overdue ≥ 90` the table resolves to `collections` only when the requested category matches none of the rules — an exact category match wins otherwise, so `firm` at 95 returns the firm rule — while for `7 ≤ days_overdue < 30` every request resolves to the gentle rule. -/
theorem C2_amended_rule_resolution (d : Int) (c : String) :
    (90 ≤ d → c ≠ "gentle" → c ≠ "firm" → c ≠ "final_notice" →
      get_applicable_rule d c = some collectionsRule) ∧
    (get_applicable_rule 95 "firm" = some firmRule) ∧
    (7 ≤ d → d < 30 → get_applicable_rule d c = some gentleRule) := by
  refine ⟨?_, ?_, ?_⟩
  · intro h90 hg hf hn
    rw [get_applicable_rule_eq]
    by_cases hc : c = "collections" <;> simp [hg, hf, hn, hc, h90]
  · decide
  · intro h7 h30
    rw [get_applicable_rule_eq]
    by_cases hc : c = "gentle" <;>
      simp [hc, h7, show ¬ (30 ≤ d) by omega, show ¬ (60 ≤ d) by omega,
        show ¬ (90 ≤ d) by omega]

/-- Witness for the amended C2 at `days_overdue = 100` (unknown category) and `days_overdue = 10` (category `collections`). -/
theorem C2_amended_rule_resolution_witness :
    get_applicable_rule 100 "unknown" = some collectionsRule ∧
    get_applicable_rule 10 "collections" = some gentleRule := by
  have h := C2_amended_rule_resolution 100 "unknown"
  have h2 := C2_amended_rule_resolution 10 "collections"
  exact ⟨h.1 (by norm_num) (by decide) (by decide) (by decide),
    h2.2.2 (by norm_num) (by norm_num)⟩

/-- Executing a follow-up action keeps the record's invoice. -/
theorem executeOne_invoice_id (t1 t2 : String) (f : FollowUp) :
    (executeOne t1 t2 f).invoice_id = f.invoice_id := by
  unfold executeOne; split <;> rfl

/-- Executing a follow-up action keeps the record's category. -/
theorem executeOne_follow_up_type (t1 t2 : String) (f : FollowUp) :
    (executeOne t1 t2 f).follow_up_type = f.follow_up_type := by
  unfold executeOne; split <;> rfl

/-- A map that keeps keys, invoices and categories preserves well-keyedness. -/
theorem wellKeyed_map (s : Followups) (g : String × FollowUp → String × FollowUp)
    (hfst : ∀ p, (g p).1 = p.1)
    (hinv : ∀ p, (g p).2.invoice_id = p.2.invoice_id)
    (htyp : ∀ p, (g p).2.follow_up_type = p.2.follow_up_type) :
    WellKeyed s → WellKeyed (s.map g) := by
  rintro ⟨hnd, hco⟩
  constructor
  · rw [List.map_map]
    have : (Prod.fst ∘ g) = Prod.fst := funext hfst
    rw [this]; exact hnd
  · intro p hp
    obtain ⟨q, hq, rfl⟩ := List.mem_map.mp hp
    rw [hfst, hinv, htyp]
    exact hco q hq

/-- Dict assignment with a coherent key preserves well-keyedness. -/
theorem wellKeyed_dictSet (s : Followups) (k : String) (v : FollowUp)
    (hk : k = followupKey v.invoice_id v.follow_up_type) :
    WellKeyed s → WellKeyed (dictSet s k v) := by
  rintro ⟨hnd, hco⟩
  unfold dictSet
  split
  · constructor
    · rw [List.map_map]
      have hcomp : (Prod.fst ∘ fun p : String × FollowUp =>
          if p.1 == k then (k, v) else p) = Prod.fst := by
        funext p
        by_cases h : p.1 = k <;> simp [h]
      rw [hcomp]
      exact hnd
    · intro p hp
      obtain ⟨q, hq, hqe⟩ := List.mem_map.mp hp
      by_cases h : q.1 = k
      · simp only [h, beq_self_eq_true, if_pos] at hqe
        rw [← hqe]; exact hk
      · simp only [beq_iff_eq, h, if_neg, not_false_iff] at hqe
        rw [← hqe]; exact hco q hq
  · next hany =>
    constructor
    · rw [List.map_append]
      refine List.Nodup.append hnd (by simp) ?_
      intro a ha hb
      simp only [List.map_cons, List.map_nil, List.mem_singleton] at hb
      subst hb
      obtain ⟨q, hq, hqe⟩ := List.mem_map.mp ha
      exact hany (List.any_eq_true.mpr ⟨q, hq, by simp [hqe]⟩)
    · intro p hp
      rcases List.mem_append.mp hp with h | h
      · exact hco p h
      · simp only [List.mem_singleton] at h
        subst h; exact hk

/-- Executing a follow-up action preserves well-keyedness. -/
theorem wellKeyed_executeFollowupAction (s : Followups) (fid t1 t2 : String) :
    WellKeyed s → WellKeyed (execute_followup_action s fid t1 t2) := by
  intro hw
  unfold execute_followup_action
  split
  · exact hw
  · refine wellKeyed_map s _ ?_ ?_ ?_ hw <;> intro p <;>
      by_cases h : p.1 = fid <;>
      simp [h, executeOne_invoice_id, executeOne_follow_up_type]

/-- Storing a fresh follow-up preserves well-keyedness. -/
theorem wellKeyed_scheduleCreate (s : Followups) (inv : String) (d : Int)
    (c : String) (t : String) :
    WellKeyed s → WellKeyed (schedule_followup_store s inv d c t) := by
  intro hw
  unfold schedule_followup_store
  split
  · exact hw
  · exact wellKeyed_dictSet _ _ _ rfl hw

/-- Cancelling an invoice's follow-ups preserves well-keyedness. -/
theorem wellKeyed_cancel (s : Followups) (inv t : String) :
    WellKeyed s → WellKeyed (cancel_followups_for_invoice s inv t) := by
  intro hw
  refine wellKeyed_map s _ ?_ ?_ ?_ hw <;> intro p <;> (try split) <;> rfl

/-- Payment processing preserves well-keyedness. -/
theorem wellKeyed_payment (s : Followups) (inv : String) (res : PaymentResult)
    (t : String) : WellKeyed s → WellKeyed (process_payment_with s inv res t).2 := by
  intro hw
  unfold process_payment_with
  split
  · exact wellKeyed_cancel s inv t hw
  · exact hw

/-- Every reachable follow-up table is well-keyed. -/
theorem reachable_wellKeyed {s : Followups} (h : Reachable s) : WellKeyed s := by
  induction h with
  | init => exact ⟨List.nodup_nil, by intro p hp; cases hp⟩
  | create inv d c t _ ih => exact wellKeyed_scheduleCreate _ inv d c t ih
  | execute fid t1 t2 _ ih => exact wellKeyed_executeFollowupAction _ fid t1 t2 ih
  | payment inv res t _ ih => exact wellKeyed_payment _ inv res t ih

/-- In a table with distinct keys, two entries under the same key coincide. -/
theorem eq_of_mem_keys_nodup :
    ∀ (s : Followups), (s.map Prod.fst).Nodup →
      ∀ {k : String} {a b : FollowUp}, (k, a) ∈ s → (k, b) ∈ s → a = b := by
  intro s
  induction s with
  | nil => intro _ k a b ha _; cases ha
  | cons p t ih =>
    intro hnd k a b ha hb
    rw [List.map_cons, List.nodup_cons] at hnd
    rcases List.mem_cons.mp ha with ha1 | ha1 <;>
      rcases List.mem_cons.mp hb with hb1 | hb1
    · exact congrArg Prod.snd (ha1.trans hb1.symm)
    · exfalso
      apply hnd.1
      rw [← ha1]
      exact List.mem_map.mpr ⟨(k, b), hb1, rfl⟩
    · exfalso
      apply hnd.1
      rw [← hb1]
      exact List.mem_map.mpr ⟨(k, a), ha1, rfl⟩
    · exact ih hnd.2 ha1 hb1

/-- C8: after any sequence of `schedule_followup` and `process_payment` steps — including the states between the store and execute halves of a schedule — at most one record per `(invoice_id, category)` pair is in status `scheduled`: two such scheduled entries are the same entry. -/
theorem C8_at_most_one_scheduled {s : Followups} (hr : Reachable s)
    (p q : String × FollowUp) (hp : p ∈ s) (hq : q ∈ s)
    (hps : p.2.status = "scheduled") (hqs : q.2.status = "scheduled")
    (hinv : p.2.invoice_id = q.2.invoice_id)
    (htyp : p.2.follow_up_type = q.2.follow_up_type) : p = q := by
  obtain ⟨hnd, hco⟩ := reachable_wellKeyed hr
  have hkey : p.1 = q.1 := by
    rw [hco p hp, hco q hq, hinv, htyp]
  have hp' : (p.1, p.2) ∈ s := hp
  have hq' : (p.1, q.2) ∈ s := by rw [hkey]; exact hq
  have : p.2 = q.2 := eq_of_mem_keys_nodup s hnd hp' hq'
  exact Prod.ext hkey this

/-- Witness for C8 on the table holding the freshly stored follow-up of invoice `INV-1`, category `firm`. -/
theorem C8_at_most_one_scheduled_witness :
    (followupKey "INV-1" "firm", freshFollowUp "INV-1" 35 "firm" firmRule "t0") =
      (followupKey "INV-1" "firm", freshFollowUp "INV-1" 35 "firm" firmRule "t0") := by
  refine C8_at_most_one_scheduled
    (s := schedule_followup_store [] "INV-1" 35 "firm" "t0")
    (Reachable.create "INV-1" 35 "firm" "t0" Reachable.init)
    _ _ ?_ ?_ rfl rfl rfl rfl <;> decide

/-- C5: `process_payment` hands the processor result back to the caller unchanged; when it succeeds, every follow-up of the invoice that was `scheduled` is afterwards `cancelled` with a cancellation timestamp and records already `executed` are untouched; when it fails no record is modified. -/
theorem C5_payment_cancellation (s : Followups) (invoice_id : String)
    (result : PaymentResult) (t : String) :
    (process_payment_with s invoice_id result t).1 = result ∧
    (result.status = "success" →
      (∀ p ∈ s, p.2.invoice_id = invoice_id → p.2.status = "scheduled" →
        (p.1, { p.2 with status := "cancelled", cancelled_at := some t }) ∈
          (process_payment_with s invoice_id result t).2) ∧
      (∀ p ∈ s, p.2.status = "executed" →
        p ∈ (process_payment_with s invoice_id result t).2)) ∧
    (result.status ≠ "success" →
      (process_payment_with s invoice_id result t).2 = s) := by
  refine ⟨?_, ?_, ?_⟩
  · unfold process_payment_with; split <;> rfl
  · intro hs
    unfold process_payment_with
    rw [if_pos hs]
    constructor
    · intro p hp hpi hps
      unfold cancel_followups_for_invoice
      have he : (fun q : String × FollowUp =>
          if q.2.invoice_id == invoice_id && q.2.status == "scheduled" then
            (q.1, { q.2 with status := "cancelled", cancelled_at := some t })
          else q) p =
          (p.1, { p.2 with status := "cancelled", cancelled_at := some t }) := by
        simp [hpi, hps]
      exact he ▸ List.mem_map_of_mem _ hp
    · intro p hp hps
      unfold cancel_followups_for_invoice
      have he : (fun q : String × FollowUp =>
          if q.2.invoice_id == invoice_id && q.2.status == "scheduled" then
            (q.1, { q.2 with status := "cancelled", cancelled_at := some t })
          else q) p = p := by
        simp [hps]
      exact he ▸ List.mem_map_of_mem _ hp
  · intro hs
    unfold process_payment_with
    rw [if_neg hs]

/-- Witness for C5: a successful payment cancels the scheduled follow-up of invoice `INV-9`. -/
theorem C5_payment_cancellation_witness :
    (followupKey "INV-9" "gentle",
      { freshFollowUp "INV-9" 10 "gentle" gentleRule "t0" with
          status := "cancelled", cancelled_at := some "t9" }) ∈
      (process_payment_with
        [(followupKey "INV-9" "gentle", freshFollowUp "INV-9" 10 "gentle" gentleRule "t0")]
        "INV-9" { status := "success" } "t9").2 := by
  have h := C5_payment_cancellation
    [(followupKey "INV-9" "gentle", freshFollowUp "INV-9" 10 "gentle" gentleRule "t0")]
    "INV-9" { status := "success" } "t9"
  exact (h.2.1 rfl).1
    (followupKey "INV-9" "gentle", freshFollowUp "INV-9" 10 "gentle" gentleRule "t0")
    (by simp) rfl rfl

/-- C9: a second `schedule_followup` for the same `(invoice_id, category)` silently replaces the stored record — whatever its status, including executed or cancelled — with a fresh record that is executed again; no error is raised, no merge occurs, and the table keeps one record per key (the resulting table is the pointwise overwrite at that key, of unchanged length). -/
theorem C9_schedule_overwrites (s : Followups) (inv : String) (d : Int)
    (c : String) (t1 t2 t3 : String) (rule : BillingRule) (old : FollowUp)
    (hrule : get_applicable_rule d c = some rule)
    (hold : (followupKey inv c, old) ∈ s) :
    schedule_followup s inv d c t1 t2 t3 =
      s.map (fun p =>
        if p.1 = followupKey inv c then
          (followupKey inv c, executeOne t2 t3 (freshFollowUp inv d c rule t1))
        else p) ∧
    (followupKey inv c, executeOne t2 t3 (freshFollowUp inv d c rule t1)) ∈
      schedule_followup s inv d c t1 t2 t3 ∧
    (executeOne t2 t3 (freshFollowUp inv d c rule t1)).status = "executed" ∧
    (schedule_followup s inv d c t1 t2 t3).length = s.length := by
  have hmain : schedule_followup s inv d c t1 t2 t3 =
      s.map (fun p =>
        if p.1 = followupKey inv c then
          (followupKey inv c, executeOne t2 t3 (freshFollowUp inv d c rule t1))
        else p) := by
    have hany : s.any (fun p => p.1 == followupKey inv c) = true :=
      List.any_eq_true.mpr ⟨(followupKey inv c, old), hold, by simp⟩
    have hstep1 : schedule_followup_store s inv d c t1 =
        s.map (fun p => if p.1 == followupKey inv c
          then (followupKey inv c, freshFollowUp inv d c rule t1) else p) := by
      unfold schedule_followup_store dictSet
      simp only [hrule, hany, if_true]
    have hstep2 : schedule_followup s inv d c t1 t2 t3 =
        execute_followup_action (schedule_followup_store s inv d c t1)
          (followupKey inv c) t2 t3 := by
      unfold schedule_followup
      simp only [hrule]
    rw [hstep2, hstep1]
    have hmem : (followupKey inv c, freshFollowUp inv d c rule t1) ∈
        s.map (fun p => if p.1 == followupKey inv c
          then (followupKey inv c, freshFollowUp inv d c rule t1) else p) := by
      exact List.mem_map.mpr ⟨(followupKey inv c, old), hold, by simp⟩
    unfold execute_followup_action
    cases hfind : (s.map (fun p => if p.1 == followupKey inv c
        then (followupKey inv c, freshFollowUp inv d c rule t1) else p)).find?
          (fun p => p.1 == followupKey inv c) with
    | none =>
      exfalso
      have := List.find?_eq_none.mp hfind _ hmem
      simp at this
    | some w =>
      simp only [List.map_map]
      have hcomp : ((fun p : String × FollowUp =>
            if p.1 == followupKey inv c
            then (p.1, executeOne t2 t3 p.2) else p) ∘
          (fun p : String × FollowUp =>
            if p.1 == followupKey inv c
            then (followupKey inv c, freshFollowUp inv d c rule t1) else p)) =
          (fun p : String × FollowUp =>
            if p.1 = followupKey inv c then
              (followupKey inv c, executeOne t2 t3 (freshFollowUp inv d c rule t1))
            else p) := by
        funext p
        by_cases hpk : p.1 = followupKey inv c <;> simp [hpk]
      rw [hcomp]
  refine ⟨hmain, ?_, ?_, ?_⟩
  · rw [hmain]
    exact List.mem_map.mpr ⟨(followupKey inv c, old), hold, by simp⟩
  · rfl
  · rw [hmain, List.length_map]

/-- Witness for C9: re-scheduling invoice `INV-2`, category `firm` over an already-executed record. -/
theorem C9_schedule_overwrites_witness :
    (followupKey "INV-2" "firm",
      executeOne "t2" "t3" (freshFollowUp "INV-2" 35 "firm" firmRule "t1")) ∈
      schedule_followup
        [(followupKey "INV-2" "firm",
          { freshFollowUp "INV-2" 20 "firm" gentleRule "t0" with
              status := "executed", executed_at := some "t0x" })]
        "INV-2" 35 "firm" "t1" "t2" "t3" := by
  exact (C9_schedule_overwrites
    [(followupKey "INV-2" "firm",
      { freshFollowUp "INV-2" 20 "firm" gentleRule "t0" with
          status := "executed", executed_at := some "t0x" })]
    "INV-2" 35 "firm" "t1" "t2" "t3" firmRule
    { freshFollowUp "INV-2" 20 "firm" gentleRule "t0" with
        status := "executed", executed_at := some "t0x" }
    (by decide) (by simp)).2.1

/-- C3 exhibit: the claimed five-value monotonic progression is violated by the code — the full status trace of a submitted claim is `submitted, in_progress, submitted, received, processing, adjudicated, paid`, which both leaves the five claimed values (`in_progress`, written by `_submit_to_clearinghouse`) and moves backwards (`in_progress` to `submitted`). -/
theorem C3_status_progression_bug :
    ((claim_pipeline_states "CLM-X" (some 100) 0 "t").map ClaimRecord.status) =
      ["submitted", "in_progress", "submitted", "received", "processing",
        "adjudicated", "paid"] ∧
    "in_progress" ∉ ["submitted", "received", "processing", "adjudicated", "paid"] := by
  constructor
  · simp [claim_pipeline_states, claim_statuses, List.scanl, track_claim_status_step,
      handle_adjudication, handle_payment, initiate_appeal,
      submit_to_clearinghouse, submit_claim]
  · decide

/-- C4: at the adjudicated stage the outcome is `approved` exactly when the uniform draw `r` satisfies `r * 100 < risk_score` (approval probability `risk_score/100`), otherwise `denied`; hence `risk_score = 100` is always approved and `risk_score = 0` always denied. -/
theorem C4_adjudication_probability (claim_id t : String) (c : ClaimRecord)
    (k : Int) (r : ℚ) (hk : c.ai_approval_likelihood = some k)
    (h0 : 0 ≤ r) (h1 : r < 1) :
    ((handle_adjudication claim_id r t c).adjudication_result = some "approved" ↔
      r * 100 < (k : ℚ)) ∧
    ((handle_adjudication claim_id r t c).adjudication_result = some "denied" ↔
      ¬ r * 100 < (k : ℚ)) ∧
    (k = 100 →
      (handle_adjudication claim_id r t c).adjudication_result = some "approved") ∧
    (k = 0 →
      (handle_adjudication claim_id r t c).adjudication_result = some "denied") := by
  have hlike : (c.ai_approval_likelihood.getD 75 : Int) = k := by rw [hk]; rfl
  unfold handle_adjudication initiate_appeal
  rw [hlike]
  by_cases hr : r * 100 < (k : ℚ)
  · refine ⟨by simp [hr], by simp [hr], fun _ => by simp [hr], ?_⟩
    rintro rfl
    exfalso
    push_cast at hr
    linarith
  · refine ⟨by simp [hr], by simp [hr], ?_, fun _ => by simp [hr]⟩
    rintro rfl
    exfalso
    exact hr (by push_cast; linarith)

/-- Witness for C4 at `risk_score` 100 and 0 with draw `1/2`. -/
theorem C4_adjudication_probability_witness :
    (handle_adjudication "CLM-1" (1/2) "t"
      (submit_claim (some 100) "t0")).adjudication_result = some "approved" ∧
    (handle_adjudication "CLM-1" (1/2) "t"
      (submit_claim (some 0) "t0")).adjudication_result = some "denied" := by
  constructor
  · exact (C4_adjudication_probability "CLM-1" "t" (submit_claim (some 100) "t0")
      100 (1/2) rfl (by norm_num) (by norm_num)).2.2.1 rfl
  · exact (C4_adjudication_probability "CLM-1" "t" (submit_claim (some 0) "t0")
      0 (1/2) rfl (by norm_num) (by norm_num)).2.2.2 rfl

/-- C6: along the simulated pipeline the adjudication result is unset in every state before the adjudicated step, is then set exactly once to `approved` or `denied`, never changes afterwards, and every subsequent `get_claim_status` read returns the stored value unchanged. -/
theorem C6_adjudication_result_set_once (claim_id : String) (ai : Option Int)
    (r : ℚ) (t : String) :
    ∃ v, (v = "approved" ∨ v = "denied") ∧
      (claim_pipeline_states claim_id ai r t).map ClaimRecord.adjudication_result =
        [none, none, none, none, none, some v, some v] ∧
      ∀ c ∈ claim_pipeline_states claim_id ai r t,
        (get_claim_status claim_id c).adjudication_result = c.adjudication_result := by
  by_cases hr : r * 100 < ((ai.getD 75 : Int) : ℚ)
  · refine ⟨"approved", Or.inl rfl, ?_, fun c _ => rfl⟩
    simp [claim_pipeline_states, claim_statuses, List.scanl, track_claim_status_step,
      handle_adjudication, handle_payment, initiate_appeal,
      submit_to_clearinghouse, submit_claim, hr]
  · refine ⟨"denied", Or.inr rfl, ?_, fun c _ => rfl⟩
    simp [claim_pipeline_states, claim_statuses, List.scanl, track_claim_status_step,
      handle_adjudication, handle_payment, initiate_appeal,
      submit_to_clearinghouse, submit_claim, hr]

/-- C7: in every state of the pipeline, the appeal fields are set exactly when the adjudication result is `denied`, and the payment fields are populated exactly when the result is `approved` and the status is `paid`. -/
theorem C7_appeal_and_payment_fields (claim_id : String) (ai : Option Int)
    (r : ℚ) (t : String) :
    (claim_pipeline_states claim_id ai r t).Forall (fun c =>
      ((c.appeal_id ≠ none ∧ c.appeal_status ≠ none) ↔
        c.adjudication_result = some "denied") ∧
      ((c.payment_amount ≠ none ∧ c.payment_date ≠ none) ↔
        (c.adjudication_result = some "approved" ∧ c.status = "paid"))) := by
  by_cases hr : r * 100 < ((ai.getD 75 : Int) : ℚ) <;>
    simp [List.Forall, claim_pipeline_states, claim_statuses, List.scanl, track_claim_status_step,
      handle_adjudication, handle_payment, initiate_appeal,
      submit_to_clearinghouse, submit_claim, hr]

/-- Dropping the digits of a text with no digit-percent adjacency never exposes a leading percent sign. -/
theorem dropWhile_ne_pct : ∀ (l : List Char), hasPctPattern l = false →
    (∀ a, l.head? = some a → a.isDigit = true) →
    ∀ t, l.dropWhile Char.isDigit ≠ '%' :: t := by
  intro l
  induction l with
  | nil => intro _ _ t h; simp [List.dropWhile] at h
  | cons a l' ih =>
    intro hno hhead t
    have ha : a.isDigit = true := hhead a rfl
    rw [List.dropWhile_cons, if_pos ha]
    cases l' with
    | nil => simp [List.dropWhile]
    | cons b l'' =>
      have hno2 : (a.isDigit && b == '%') = false ∧ hasPctPattern (b :: l'') = false := by
        have := hno
        simp only [hasPctPattern, Bool.or_eq_false_iff] at this
        exact this
      have hb : b ≠ '%' := by
        have := hno2.1
        rw [ha, Bool.true_and] at this
        simpa using this
      by_cases hbd : b.isDigit
      · exact ih hno2.2 (fun x hx => by
          simp only [List.head?_cons, Option.some.injEq] at hx
          rw [← hx]; exact hbd) t
      · rw [List.dropWhile_cons, if_neg hbd]
        intro hcontra
        injection hcontra with h1 _
        exact hb h1

/-- When no digit of the text is immediately followed by a percent sign, the regex search fails. -/
theorem searchPct_eq_none : ∀ {l : List Char}, hasPctPattern l = false →
    searchPct l = none := by
  intro l
  induction l with
  | nil => intro _; rfl
  | cons a l' ih =>
    intro h
    have hno' : hasPctPattern l' = false := by
      cases l' with
      | nil => rfl
      | cons b l'' =>
        simp only [hasPctPattern, Bool.or_eq_false_iff] at h
        exact h.2
    by_cases ha : a.isDigit
    · rw [searchPct, if_pos ha]
      have hne := dropWhile_ne_pct (a :: l') h (fun x hx => by
        simp only [List.head?_cons, Option.some.injEq] at hx
        rw [← hx]; exact ha)
      cases hdw : (a :: l').dropWhile Char.isDigit with
      | nil => exact ih hno'
      | cons d ds =>
        have hd : d ≠ '%' := fun hc => hne ds (by rw [hdw, hc])
        simpa [hd] using ih hno'
    · rw [searchPct, if_neg ha]
      exact ih hno'

/-- C10: when the `ai_analysis` passed to `submit_claim` has no `approval_likelihood` key, adjudication uses the default 75 — the claim is approved exactly when `r * 100 < 75` and the outcome is always one of approved or denied, never a failure — and the AI layer's extractor returns the default 75 whenever no percentage pattern occurs in the analysis text. -/
theorem C10_default_likelihood (claim_id t : String) (r : ℚ) (c : ClaimRecord)
    (hai : c.ai_approval_likelihood = none) :
    ((handle_adjudication claim_id r t c).adjudication_result = some "approved" ↔
      r * 100 < 75) ∧
    ((handle_adjudication claim_id r t c).adjudication_result = some "approved" ∨
      (handle_adjudication claim_id r t c).adjudication_result = some "denied") ∧
    (∀ s : String, hasPctPattern s.data = false →
      extract_approval_likelihood s = 75) := by
  have hlike : (c.ai_approval_likelihood.getD 75 : Int) = 75 := by rw [hai]; rfl
  unfold handle_adjudication initiate_appeal
  rw [hlike]
  refine ⟨?_, ?_, fun s hs => by
    unfold extract_approval_likelihood
    rw [searchPct_eq_none hs]⟩
  · by_cases hr : r * 100 < (75 : ℚ)
    · exact ⟨fun _ => hr, fun _ => by simp [hr]⟩
    · exact ⟨fun h => absurd h (by simp [hr]), fun h => absurd h hr⟩
  · by_cases hr : r * 100 < (75 : ℚ)
    · exact Or.inl (by simp [hr])
    · exact Or.inr (by simp [hr])

/-- Witness for C10 with draw `1/2` and a pattern-free analysis text. -/
theorem C10_default_likelihood_witness :
    (handle_adjudication "CLM-2" (1/2) "t"
      (submit_claim none "t0")).adjudication_result = some "approved" ∧
    extract_approval_likelihood "claim is complete" = 75 := by
  have h := C10_default_likelihood "CLM-2" "t" (1/2) (submit_claim none "t0") rfl
  exact ⟨h.1.mpr (by norm_num), h.2.2 "claim is complete" (by decide)⟩

end Octo
